import Mathlib

/-!
Verification of the Canvas-Bulk-Downloader pipeline (src/cbd.py and
src/.py Files/cbd_exe.py) against its natural-language specification.

The Python functions are shallowly embedded as executable Lean functions.
Strings are modelled as Lean `String`/`List Char`; the filesystem, the
per-course URL ledger, the printed failure messages and the transfer
attempts are carried in an explicit state record.  The remote API
(canvasapi) and the HTML parser (BeautifulSoup) are external
collaborators: they enter the model as function parameters
(`resolve`, the `Course` accessor fields) and as the list of `href`
attribute values that BeautifulSoup would yield for a document.
-/

/-- Python `str.isspace` (the whitespace set stripped by `str.strip()`). -/
def isPySpace (c : Char) : Bool :=
  c.toNat ∈ [9, 10, 11, 12, 13, 28, 29, 30, 31, 32, 133, 160, 5760,
    8192, 8193, 8194, 8195, 8196, 8197, 8198, 8199, 8200, 8201, 8202,
    8232, 8233, 8239, 8287, 12288]

/-- The characters `make_valid_folder_name` replaces (cbd.py lines 28-29).
The double-quote character is written by code point. -/
def badChars : List Char := ['\\', '/', ':', '*', '?', Char.ofNat 34, '<', '>', '|']

/-- One entry of the translation table `rep` (cbd.py lines 28-29). -/
def replChar (c : Char) : Char := if c ∈ badChars then '_' else c

/-- Python `str.strip()`: drop whitespace from both ends. -/
def stripL (l : List Char) : List Char :=
  (l.dropWhile isPySpace).rdropWhile isPySpace

/-- cbd.py lines 20-32: truncate to 120 characters, apply the translation
table, strip whitespace.  This is the part of `make_valid_folder_name`
shared by the file and folder cases. -/
def sanitizeBaseL (l : List Char) : List Char :=
  stripL ((if l.length > 120 then l.take 120 else l).map replChar)

/-- Python `output.split('..')[0]`: the prefix before the first occurrence
of two consecutive periods (the whole list when there is none). -/
def beforeDD : List Char → List Char
  | [] => []
  | [c] => [c]
  | a :: b :: r => if a = '.' ∧ b = '.' then [] else a :: beforeDD (b :: r)

/-- Whether a list contains two consecutive periods. -/
def containsDD : List Char → Bool
  | [] => false
  | [_] => false
  | a :: b :: r => if a = '.' ∧ b = '.' then true else containsDD (b :: r)

/-- cbd.py lines 35-47, the `not is_file` block: `output[-1]` raises
`IndexError` on an empty string (modelled as `none`); a trailing `'..'`
triggers `output.split('..')[0]`; a single trailing `'.'` is dropped. -/
def dropTrailingDots (l : List Char) : Option (List Char) :=
  match l.reverse with
  | [] => none
  | a :: r =>
    if a = '.' then
      match r with
      | b :: _ => if b = '.' then some (beforeDD l) else some l.dropLast
      | [] => some l.dropLast
    else some l

/-- cbd.py lines 12-50 `make_valid_folder_name` (identical in cbd_exe.py
lines 18-56).  `none` models the uncaught `IndexError` raised when the
stripped name is empty and `is_file` is false. -/
def make_valid_folder_name (input_name : String) (is_file : Bool) : Option String :=
  let o := sanitizeBaseL input_name.data
  if is_file then some (String.mk o)
  else (dropTrailingDots o).map String.mk

/-- Python `str.split(sep)` for a single-character separator. -/
def pySplit (sep : Char) : List Char → List (List Char)
  | [] => [[]]
  | c :: cs =>
    if c = sep then [] :: pySplit sep cs
    else (pySplit sep cs).modifyHead (fun p => c :: p)

/-- Python `str.lower()` restricted to ASCII letters (all inputs the
program compares against are ASCII). -/
def pyLowerChar (c : Char) : Char :=
  if 'A' ≤ c ∧ c ≤ 'Z' then Char.ofNat (c.toNat + 32) else c

/-- The outcome of the external `file.download(path)` call, attached to
the file handle: canvasapi may raise `ResourceDoesNotExist`, Python may
raise `MemoryError`, or any other exception may occur (cbd.py lines
85-98 catch exactly these three groups). -/
inductive TransferResult
  | success
  | resourceMissing
  | memoryError
  | otherError
deriving DecidableEq

/-- A canvasapi File object: display name (used for the local filename),
filename (used for the extension filter), stable url (used for dedup),
and the behaviour of its `download` method. -/
structure FileObj where
  display_name : String
  filename : String
  url : String
  transfer : TransferResult
deriving DecidableEq

/-- cbd.py lines 158-172 `valid_filetype` (identical in cbd_exe.py):
`file.filename.split('.')[-1].lower()` must not be a video extension. -/
def unwanted_filetypes : List String := ["mp4", "mov", "webm", "wmv", "flv", "ogv", "avi"]

/-- cbd.py lines 158-172. -/
def valid_filetype (f : FileObj) : Bool :=
  let filetype := String.mk (((pySplit '.' f.filename.data).getLastD []).map pyLowerChar)
  if filetype ∈ unwanted_filetypes then false else true

/-- The observable state threaded through the pipeline: `fs` is the set of
existing filesystem entries, `urls` the per-course ledger
(`course_items_urls`), `messages` the printed failure reports, and
`attempts` a log of the urls for which `file.download` was invoked
(instrumentation for "the transfer step was called"). -/
structure St where
  fs : List String
  urls : List String
  messages : List String
  attempts : List String
deriving DecidableEq

/-- Python `os.makedirs(dir)` guarded by `os.path.exists(dir)`. -/
def ensureDir (dir : String) (fs : List String) : List String :=
  if dir ∈ fs then fs else dir :: fs

/-- The local path cbd.py line 80 computes:
`f"{dir}/{make_valid_folder_name(file.display_name, is_file=True)}"`. -/
def targetPath (dir : String) (f : FileObj) : String :=
  dir ++ "/" ++ String.mk (sanitizeBaseL f.display_name.data)

/-- First line printed by the two failing-download branches. -/
def msgCouldNot (f : FileObj) : String :=
  "The file " ++ f.display_name ++ " could not be downloaded."

/-- cbd.py lines 52-100 `download_file`: skip if the url is in the ledger,
skip videos, create the directory, skip if the target path exists, else
attempt the transfer; a successful transfer records the url in the
ledger, a failing one prints a report and falls through (the function
always returns). -/
def download_file (f : FileObj) (dir : String) (st : St) : St :=
  if f.url ∈ st.urls then st
  else if valid_filetype f = false then st
  else if targetPath dir f ∈ ensureDir dir st.fs then
    { st with fs := ensureDir dir st.fs }
  else
    match f.transfer with
    | .success =>
      { st with fs := targetPath dir f :: ensureDir dir st.fs,
                urls := f.url :: st.urls,
                attempts := st.attempts ++ [f.url] }
    | .resourceMissing =>
      { st with fs := ensureDir dir st.fs,
                messages := st.messages ++
                  [msgCouldNot f, "The associated resource does not exist."],
                attempts := st.attempts ++ [f.url] }
    | .memoryError =>
      { st with fs := ensureDir dir st.fs,
                messages := st.messages ++
                  [msgCouldNot f,
                   "The file was either too large to download, or your system does not have enough space."],
                attempts := st.attempts ++ [f.url] }
    | .otherError =>
      { st with fs := ensureDir dir st.fs,
                messages := st.messages ++ [msgCouldNot f],
                attempts := st.attempts ++ [f.url] }

/-- Failure message of cbd_exe.py line 104. -/
def msgExeMissing (f : FileObj) : String :=
  "The file " ++ f.display_name ++ " could not be downloaded. Resource does not exist. \n"

/-- Failure message of cbd_exe.py line 109. -/
def msgExeMemory (f : FileObj) : String :=
  "The file " ++ f.display_name ++
    " could not be downloaded. The file was either too large to download, or your system does not have enough space. \n"

/-- Failure message of cbd_exe.py line 114. -/
def msgExeOther (f : FileObj) : String :=
  "The file " ++ f.display_name ++ " could not be downloaded. \n"

/-- cbd_exe.py lines 58-118 `download_file`: same as cbd.py but with an
extra early target-path check (lines 81-83) and an `Option String`
result carrying the failure message (None on success or skip).  The
unconditional progress print of line 71 is not part of the state. -/
def download_file_exe (f : FileObj) (dir : String) (st : St) : St × Option String :=
  if f.url ∈ st.urls then (st, none)
  else if targetPath dir f ∈ st.fs then (st, none)
  else if valid_filetype f = false then (st, none)
  else if targetPath dir f ∈ ensureDir dir st.fs then
    ({ st with fs := ensureDir dir st.fs }, none)
  else
    match f.transfer with
    | .success =>
      ({ st with fs := targetPath dir f :: ensureDir dir st.fs,
                 urls := f.url :: st.urls,
                 attempts := st.attempts ++ [f.url] }, none)
    | .resourceMissing =>
      ({ st with fs := ensureDir dir st.fs,
                 messages := st.messages ++ [msgExeMissing f],
                 attempts := st.attempts ++ [f.url] }, some (msgExeMissing f))
    | .memoryError =>
      ({ st with fs := ensureDir dir st.fs,
                 messages := st.messages ++ [msgExeMemory f],
                 attempts := st.attempts ++ [f.url] }, some (msgExeMemory f))
    | .otherError =>
      ({ st with fs := ensureDir dir st.fs,
                 messages := st.messages ++ [msgExeOther f],
                 attempts := st.attempts ++ [f.url] }, some (msgExeOther f))

/-- Whether `l` starts with `pat`. -/
def startsWithL (pat : List Char) (l : List Char) : Bool :=
  match pat, l with
  | [], _ => true
  | _ :: _, [] => false
  | p :: ps, c :: cs => if p = c then startsWithL ps cs else false

/-- Python `pat in s`: substring containment. -/
def containsSub (pat : List Char) : List Char → Bool
  | [] => startsWithL pat []
  | c :: cs => if startsWithL pat (c :: cs) then true else containsSub pat cs

/-- The per-link body of `download_files_from_html` (cbd.py lines
120-150): which file id, if any, a single href value yields.  Note that
line 134's guard `type(file_id) == int` is always False — `split`
returns strings — so the inner checks always run. -/
def fileIdFromHref (href : String) : Option String :=
  if containsSub "/files/".data href.data = false then none
  else
    let file_url_ls := pySplit '/' href.data
    let file_id := file_url_ls.getLastD []
    if containsSub "?verifier=".data file_id then
      let stripped := (pySplit '?' file_id).headD []
      if String.mk stripped = "download" ∨ String.mk stripped = "preview" then
        some (String.mk (file_url_ls.dropLast.getLastD []))
      else some (String.mk stripped)
    else if containsSub "?wrap=".data file_id then none
    else none

/-- The sequence of file ids the scan yields for the href values
BeautifulSoup finds (the HtmlLinkExtractor of the spec). -/
def extractFileIds (hrefs : List String) : List String :=
  hrefs.filterMap fileIdFromHref

/-- Exceptions of the external canvasapi collaborator, plus `pyError`
for an uncaught Python-level error (the sanitizer's IndexError). -/
inductive RErr
  | resourceDoesNotExist
  | forbiddenErr
  | pyError
deriving DecidableEq

/-- cbd.py lines 102-156 `download_files_from_html`, over the href values
of the parsed document; `resolve` is `course.get_file` (line 153), whose
exceptions are NOT caught and therefore propagate (`Except.error`). -/
def download_files_from_html (hrefs : List String)
    (resolve : String → Except RErr FileObj) (dir : String) (st : St) :
    Except RErr St :=
  match hrefs with
  | [] => Except.ok st
  | h :: t =>
    match fileIdFromHref h with
    | none => download_files_from_html t resolve dir st
    | some fid =>
      match resolve fid with
      | Except.error e => Except.error e
      | Except.ok f => download_files_from_html t resolve dir (download_file f dir st)

/-- A module item with its type tag (cbd.py lines 254-268). -/
inductive ModuleItem
  | file (content_id : Nat)
  | page (page_url : String)
  | other

/-- A canvasapi Module: name and items. -/
structure CModule where
  name : String
  items : List ModuleItem

/-- A canvasapi Assignment as first enumerated (name and html_url; the
description is only available after the re-fetch by id). -/
structure AssignmentObj where
  name : String
  html_url : String

/-- A canvasapi Folder: `objRepr` is what `f'{folder}'` interpolates
(cbd.py line 307), and `files` the result of iterating
`folder.get_files()` — `Except.error .forbiddenErr` models the
`Forbidden` raised on unauthorized listing (cbd.py lines 315-319). -/
structure Folder where
  objRepr : String
  files : Except RErr (List FileObj)

/-- A course as seen through the canvasapi collaborator.  `name = none`
models the `AttributeError` on `course.name` for unpublished courses
(cbd.py lines 220-223).  Page bodies and assignment descriptions are
carried as the href lists BeautifulSoup would extract from them
(`none` = falsy body / no description). -/
structure Course where
  id : Int
  name : Option String
  modules : List CModule
  assignments : List AssignmentObj
  folders : List Folder
  get_file : String → Except RErr FileObj
  get_page : String → Except RErr (Option (List String))
  get_assignment : String → Except RErr (String × Option (List String))

/-- cbd.py lines 254-268: one module item.  `course.get_file` and
`course.get_page` are called outside any try block, so their errors
propagate. -/
def processItem (c : Course) (module_dir : String) (st : St) :
    ModuleItem → Except RErr St
  | ModuleItem.file cid =>
    match c.get_file (toString cid) with
    | Except.error e => Except.error e
    | Except.ok f => Except.ok (download_file f module_dir st)
  | ModuleItem.page purl =>
    match c.get_page purl with
    | Except.error e => Except.error e
    | Except.ok none => Except.ok st
    | Except.ok (some hrefs) => download_files_from_html hrefs c.get_file module_dir st
  | ModuleItem.other => Except.ok st

/-- cbd.py lines 242-268: the modules loop. -/
def runModules (c : Course) (modules_dir : String) :
    List CModule → St → Except RErr St
  | [], st => Except.ok st
  | m :: ms, st =>
    match make_valid_folder_name m.name false with
    | none => Except.error RErr.pyError
    | some mn =>
      match m.items.foldlM (fun s it => processItem c (modules_dir ++ "/" ++ mn) s it) st with
      | Except.error e => Except.error e
      | Except.ok st2 => runModules c modules_dir ms st2

/-- cbd.py lines 281-299: the assignments loop.  The assignment id is the
last `/`-segment of `html_url`; the assignment is re-fetched by that id
and its description scanned for file links. -/
def runAssignments (c : Course) (assignments_dir : String) :
    List AssignmentObj → St → Except RErr St
  | [], st => Except.ok st
  | a :: rest, st =>
    let aid := String.mk ((pySplit '/' a.html_url.data).getLastD [])
    match c.get_assignment aid with
    | Except.error e => Except.error e
    | Except.ok (aname, desc) =>
      match make_valid_folder_name aname false with
      | none => Except.error RErr.pyError
      | some an =>
        let step :=
          match desc with
          | some hrefs =>
            download_files_from_html hrefs c.get_file (assignments_dir ++ "/" ++ an) st
          | none => Except.ok st
        match step with
        | Except.error e => Except.error e
        | Except.ok st2 => runAssignments c assignments_dir rest st2

/-- cbd.py lines 302-319: the folders sweep.  The raw object
representation is interpolated into the path (line 307); a `Forbidden`
while iterating a folder's files breaks out of the folders loop, any
other canvasapi error propagates. -/
def runFolders (files_dir : String) : List Folder → St → Except RErr St
  | [], st => Except.ok st
  | fo :: rest, st =>
    match fo.files with
    | Except.error RErr.forbiddenErr => Except.ok st
    | Except.error e => Except.error e
    | Except.ok fl =>
      runFolders files_dir rest
        (fl.foldl (fun s file => download_file file (files_dir ++ "/" ++ fo.objRepr) s) st)

/-- cbd.py lines 226-319: the body of the course loop for one course
whose name was readable (the CourseMaterializer of the spec). -/
def runCourse (c : Course) (cname save_path : String) (st0 : St) : Except RErr St :=
  match make_valid_folder_name cname false with
  | none => Except.error RErr.pyError
  | some cfold =>
    let course_folder_path := save_path ++ "/" ++ cfold
    let st1 : St := { st0 with fs := ensureDir course_folder_path st0.fs }
    match runModules c (course_folder_path ++ "/Modules") c.modules st1 with
    | Except.error e => Except.error e
    | Except.ok st2 =>
      match runAssignments c (course_folder_path ++ "/Assignments") c.assignments st2 with
      | Except.error e => Except.error e
      | Except.ok st3 => runFolders course_folder_path c.folders st3

/-- cbd.py lines 210-327: the top-level loop (the RunDriver of the
spec).  A course whose id is in the skip list is skipped; an unreadable
name skips the course; afterwards the course id is appended to the
durable skip list — unconditionally, also when some downloads inside
failed (their exceptions were swallowed by `download_file`).  Returns
the final state together with the persisted skip list. -/
def runAll (save_path : String) :
    List Course → List Int → St → Except RErr (St × List Int)
  | [], skip, st => Except.ok (st, skip)
  | c :: cs, skip, st =>
    if c.id ∈ skip then runAll save_path cs skip st
    else
      match c.name with
      | none => runAll save_path cs skip st
      | some nm =>
        match runCourse c nm save_path st with
        | Except.error e => Except.error e
        | Except.ok st2 => runAll save_path cs (skip ++ [c.id]) st2

/-- ASCII decimal digit test. -/
def isDigitCh (c : Char) : Bool := decide ('0' ≤ c ∧ c ≤ '9')

/-- After one digit has been read: Python's integer literal grammar
allows single underscores between digits. -/
def digitsAfter : List Char → Bool
  | [] => true
  | c :: rest =>
    if c = '_' then
      match rest with
      | [] => false
      | d :: r => if isDigitCh d then digitsAfter r else false
    else if isDigitCh c then digitsAfter rest else false

/-- Numeric value of a digit-and-underscore string. -/
def digitsToNat (l : List Char) : Nat :=
  l.foldl (fun n c => if c = '_' then n else n * 10 + (c.toNat - 48)) 0

/-- A nonempty digit sequence (underscores allowed between digits). -/
def parseUnsigned (l : List Char) : Option Nat :=
  match l with
  | [] => none
  | c :: rest => if isDigitCh c ∧ digitsAfter rest then some (digitsToNat l) else none

/-- Python `int(s)` on a string: strip whitespace, optional sign,
decimal digits; `none` models the `ValueError`. -/
def pyInt (s : String) : Option Int :=
  match stripL s.data with
  | '+' :: rest => (parseUnsigned rest).map Int.ofNat
  | '-' :: rest => (parseUnsigned rest).map (fun n => -(Int.ofNat n : Int))
  | l => (parseUnsigned l).map Int.ofNat

/-- The two ways the startup skip-list load can raise: the read-mode
`open` on a missing file (cbd.py line 182), and `int()` on a bad line
(cbd.py line 187). -/
inductive LoadErr
  | fileNotFound
  | valueError
deriving DecidableEq

/-- cbd.py lines 185-187: parse each line with `int`, first failure
aborts (nothing is skipped, no partial set is returned). -/
def parseLines : List String → Except LoadErr (List Int)
  | [] => Except.ok []
  | s :: rest =>
    match pyInt s with
    | none => Except.error LoadErr.valueError
    | some n =>
      match parseLines rest with
      | Except.error e => Except.error e
      | Except.ok ns => Except.ok (n :: ns)

/-- cbd.py lines 182-187: the startup skip-list load.  The argument is
the backing file's `readlines()` result, or `none` when the file does
not exist — in which case `open(..., 'r')` raises `FileNotFoundError`. -/
def loadSkipList (file : Option (List String)) : Except LoadErr (List Int) :=
  match file with
  | none => Except.error LoadErr.fileNotFound
  | some lines => parseLines lines

/-- The state at program start: nothing downloaded yet. -/
def emptySt : St := { fs := [], urls := [], messages := [], attempts := [] }

/-- A file handle whose download would succeed. -/
def mkFile (s : String) : FileObj :=
  { display_name := s, filename := s, url := "u", transfer := TransferResult.success }

/-- A file handle whose download raises an uncategorized exception. -/
def exFail : FileObj :=
  { display_name := "a.pdf", filename := "a.pdf", url := "u", transfer := TransferResult.otherError }

/-- A file handle whose download succeeds. -/
def exOk : FileObj :=
  { display_name := "b.pdf", filename := "b.pdf", url := "w", transfer := TransferResult.success }

/-- A different file handle carrying the same URL as `exOk`. -/
def exOkTwin : FileObj :=
  { display_name := "c.pdf", filename := "c.pdf", url := "w", transfer := TransferResult.otherError }

/-- A state in which `d/a.pdf` already exists on disk. -/
def c4st : St := { fs := ["d/a.pdf"], urls := [], messages := [], attempts := [] }

/-- A file reached twice within one course whose transfer keeps failing. -/
def c2file : FileObj :=
  { display_name := "notes.pdf", filename := "notes.pdf", url := "u1",
    transfer := TransferResult.otherError }

/-- A course with a single module holding a single File item; resolving
the item succeeds but its transfer fails. -/
def c2course : Course :=
  { id := 7, name := some "Math",
    modules := [{ name := "M1", items := [ModuleItem.file 5] }],
    assignments := [], folders := [],
    get_file := fun _ => Except.ok c2file,
    get_page := fun _ => Except.ok none,
    get_assignment := fun _ => Except.ok ("A", none) }

/-- The state the run over `c2course` ends in: the directories exist, the
failure was reported, one transfer was attempted, nothing was written. -/
def c2run1st : St :=
  { fs := ["root/Math/Modules/M1", "root/Math"], urls := [],
    messages := ["The file notes.pdf could not be downloaded."], attempts := ["u1"] }

/-- A resolver (`course.get_file`) whose remote resource is missing. -/
def c1badResolve : String → Except RErr FileObj :=
  fun _ => Except.error RErr.resourceDoesNotExist

/-- A resolver that always succeeds, returning a file whose transfer
then fails. -/
def c1okResolve : String → Except RErr FileObj := fun _ => Except.ok exFail

/-- A course whose page body links two files and whose `get_file` raises
`ResourceDoesNotExist`. -/
def c1badCourse : Course :=
  { id := 1, name := some "CourseA",
    modules := [{ name := "M",  items := [ModuleItem.page "p"] }],
    assignments := [], folders := [],
    get_file := c1badResolve,
    get_page := fun _ =>
      Except.ok (some ["/courses/1/files/10?verifier=x", "/courses/1/files/11?verifier=y"]),
    get_assignment := fun _ => Except.ok ("A", none) }

/-- A second, entirely unproblematic course queued after `c1badCourse`. -/
def c1otherCourse : Course :=
  { id := 2, name := some "CourseB", modules := [], assignments := [], folders := [],
    get_file := fun _ => Except.ok exOk,
    get_page := fun _ => Except.ok none,
    get_assignment := fun _ => Except.ok ("B", none) }

/-- The substring of a list after its last occurrence of `sep` (the whole
list when `sep` does not occur).  Spec-side notion used to characterize
`split(sep)[-1]`. -/
def afterLastSep (sep : Char) : List Char → List Char
  | [] => []
  | c :: cs => if sep ∈ cs then afterLastSep sep cs else if c = sep then cs else c :: cs

theorem mem_ensureDir {x dir : String} {fs : List String} :
    x ∈ ensureDir dir fs ↔ x = dir ∨ x ∈ fs := by
  by_cases h : dir ∈ fs
  · simp only [ensureDir, if_pos h]
    constructor
    · exact Or.inr
    · rintro (rfl | hx)
      · exact h
      · exact hx
  · simp [ensureDir, if_neg h]

theorem targetPath_ne (dir : String) (f : FileObj) : targetPath dir f ≠ dir := by
  intro h
  have hlen := congrArg String.length h
  have hone : ("/" : String).length = 1 := rfl
  simp only [targetPath, String.length_append, hone] at hlen
  omega

/-- C3: the claim says a plain identifier candidate (final path segment of
an href containing `/files/`) is yielded as-is; but `type(file_id) == int`
on cbd.py line 134 is always False for the string produced by `split`, so
the else-branch on line 149 skips every plain candidate.  Evaluating the
embedded extractor at the plain link `/courses/1/files/123` (the href of
`<a href="/courses/1/files/123">x</a>`) yields nothing. -/
theorem C3_eval :
    fileIdFromHref "/courses/1/files/123" = none ∧
    extractFileIds ["/courses/1/files/123"] = [] :=
  ⟨rfl, rfl⟩

/-- C4: if a filesystem entry already exists at the computed target path,
`download_file` (both variants) performs no transfer call and returns
success, regardless of the ledger. -/
theorem C4_thm (f : FileObj) (dir : String) (st : St)
    (h : targetPath dir f ∈ st.fs) :
    (download_file f dir st).attempts = st.attempts ∧
    (download_file_exe f dir st).1.attempts = st.attempts ∧
    (download_file_exe f dir st).2 = none := by
  have hmem : targetPath dir f ∈ ensureDir dir st.fs := mem_ensureDir.mpr (Or.inr h)
  refine ⟨?_, ?_, ?_⟩
  · by_cases h1 : f.url ∈ st.urls
    · simp [download_file, h1]
    · by_cases h2 : valid_filetype f = false
      · simp [download_file, h1, h2]
      · simp [download_file, h1, h2, hmem]
  · by_cases h1 : f.url ∈ st.urls
    · simp [download_file_exe, h1]
    · simp [download_file_exe, h1, h]
  · by_cases h1 : f.url ∈ st.urls
    · simp [download_file_exe, h1]
    · simp [download_file_exe, h1, h]

theorem C4_witness :
    (download_file (mkFile "a.pdf") "d" c4st).attempts = c4st.attempts ∧
    (download_file_exe (mkFile "a.pdf") "d" c4st).1.attempts = c4st.attempts ∧
    (download_file_exe (mkFile "a.pdf") "d" c4st).2 = none :=
  C4_thm (mkFile "a.pdf") "d" c4st (by decide)

/-- C7: the claim says that once `download_file` has attempted a transfer
for a url, no later call with the same url transfers again.  The ledger
is only updated on success (cbd.py line 87), so after a failing attempt
the same url is transferred again: two calls on the same failing file
log two attempts. -/
theorem C7_counterexample :
    (download_file exFail "d" emptySt).attempts = ["u"] ∧
    (download_file exFail "d" (download_file exFail "d" emptySt)).attempts = ["u", "u"] :=
  ⟨rfl, rfl⟩

/-- C7 (amended): once `download_file` has attempted a transfer for a url
and that transfer succeeded, every later call with the same url performs
no transfer (the url is in the ledger); after a failing attempt the url
may be transferred again. -/
theorem download_file_urls_mono (f : FileObj) (dir : String) (st : St) :
    ∀ u, u ∈ st.urls → u ∈ (download_file f dir st).urls := by
  intro u hu
  by_cases h1 : f.url ∈ st.urls
  · simp [download_file, h1, hu]
  by_cases h2 : valid_filetype f = false
  · simp [download_file, h1, h2, hu]
  by_cases h3 : targetPath dir f ∈ ensureDir dir st.fs
  · simp [download_file, h1, h2, h3, hu]
  cases hf : f.transfer <;> simp [download_file, h1, h2, h3, hf, hu]

theorem foldl_download_urls_mono (mid : List (FileObj × String)) :
    ∀ (st : St) (u : String), u ∈ st.urls →
      u ∈ (mid.foldl (fun s p => download_file p.1 p.2 s) st).urls := by
  induction mid with
  | nil => exact fun st u hu => hu
  | cons p rest ih =>
    intro st u hu
    exact ih (download_file p.1 p.2 st) u (download_file_urls_mono p.1 p.2 st u hu)

theorem download_file_skip_of_mem (g : FileObj) (dir : String) (st : St)
    (h : g.url ∈ st.urls) : download_file g dir st = st := by
  simp [download_file, h]

theorem download_file_records (f : FileObj) (dir : String) (st : St)
    (hs : f.transfer = TransferResult.success)
    (hatt : (download_file f dir st).attempts ≠ st.attempts) :
    f.url ∈ (download_file f dir st).urls := by
  by_cases h1 : f.url ∈ st.urls
  · exact download_file_urls_mono f dir st f.url h1
  by_cases h2 : valid_filetype f = false
  · exact absurd (by simp [download_file, h1, h2]) hatt
  by_cases h3 : targetPath dir f ∈ ensureDir dir st.fs
  · exact absurd (by simp [download_file, h1, h2, h3]) hatt
  · simp [download_file, h1, h2, h3, hs]

/-- C7 (amended): once `download_file` has attempted a transfer for a url
and that transfer succeeded, the url is recorded in the course ledger,
the ledger only ever grows under further `download_file` calls, and
therefore EVERY later call during the same course traversal — after any
sequence `mid` of intervening acquisitions, with any file handle `g`
carrying that same url, into any directory — performs no transfer.
After a failing attempt the url may be transferred again (see the
counterexample). -/
theorem C7_amended (f g : FileObj) (dir dir2 : String) (st : St)
    (mid : List (FileObj × String))
    (hs : f.transfer = TransferResult.success)
    (hatt : (download_file f dir st).attempts ≠ st.attempts)
    (hurl : g.url = f.url) :
    (download_file g dir2
        (mid.foldl (fun s p => download_file p.1 p.2 s) (download_file f dir st))).attempts
      = (mid.foldl (fun s p => download_file p.1 p.2 s) (download_file f dir st)).attempts := by
  have h1 : f.url ∈ (download_file f dir st).urls := download_file_records f dir st hs hatt
  have h2 : f.url ∈
      (mid.foldl (fun s p => download_file p.1 p.2 s) (download_file f dir st)).urls :=
    foldl_download_urls_mono mid (download_file f dir st) f.url h1
  rw [download_file_skip_of_mem g dir2 _ (by rw [hurl]; exact h2)]

theorem C7_witness :
    (download_file exOkTwin "d2"
        (List.foldl (fun s p => download_file p.1 p.2 s) (download_file exOk "d" emptySt)
          [(exFail, "d")])).attempts
      = (List.foldl (fun s p => download_file p.1 p.2 s) (download_file exOk "d" emptySt)
          [(exFail, "d")]).attempts :=
  C7_amended exOk exOkTwin "d" "d2" emptySt [(exFail, "d")] rfl (by decide) rfl

/-- C2 (amended): nothing recorded per-file blocks a retry — whenever the
url is not in the (fresh, in-memory) ledger, the file type is eligible
and the target path is absent from disk, `download_file` attempts the
transfer.  (The counterexample shows the batch driver nevertheless skips
the whole course on re-run, because the course id was persisted to the
skip list even though the transfer failed.) -/
theorem C2_amended (f : FileObj) (dir : String) (st : St)
    (h1 : f.url ∉ st.urls) (h2 : valid_filetype f = true)
    (h3 : targetPath dir f ∉ st.fs) :
    (download_file f dir st).attempts = st.attempts ++ [f.url] := by
  have h3' : targetPath dir f ∉ ensureDir dir st.fs := by
    intro hx
    rcases mem_ensureDir.mp hx with he | hm
    · exact targetPath_ne dir f he
    · exact h3 hm
  cases hf : f.transfer <;> simp [download_file, h1, h2, h3', hf]

theorem C2_witness :
    (download_file exFail "d" emptySt).attempts = emptySt.attempts ++ [exFail.url] :=
  C2_amended exFail "d" emptySt (by decide) (by decide) (by decide)

/-- C2: the claim says every file whose transfer failed (and which is
therefore absent on disk) is re-attempted by a re-run.  But cbd.py line
323 appends the course id to the durable skip list even when transfers
inside the course failed, and line 215 then skips the whole course on
the next run: the failed file `u1` of course 7 is absent on disk after
run one, yet run two (fresh ledger, same disk, the persisted skip list)
performs no transfer attempt at all. -/
theorem C2_counterexample :
    runAll "root" [c2course] [] emptySt = Except.ok (c2run1st, [7]) ∧
    targetPath "root/Math/Modules/M1" c2file ∉ c2run1st.fs ∧
    runAll "root" [c2course] [7]
        { fs := c2run1st.fs, urls := [], messages := [], attempts := [] }
      = Except.ok ({ fs := c2run1st.fs, urls := [], messages := [], attempts := [] }, [7]) :=
  ⟨rfl, by decide, rfl⟩

/-- C1 (amended): failures of the transfer step are always caught inside
`download_file` and surface only as messages — when the resolver
(`course.get_file`) never raises, `download_files_from_html` returns
normally whatever each file's transfer outcome; resolution failures,
by contrast, are uncaught (see the counterexample). -/
theorem C1_amended (hrefs : List String) (resolve : String → Except RErr FileObj)
    (dir : String) (st : St)
    (hres : ∀ fid, ∃ f, resolve fid = Except.ok f) :
    ∃ st2, download_files_from_html hrefs resolve dir st = Except.ok st2 := by
  induction hrefs generalizing st with
  | nil => exact ⟨st, rfl⟩
  | cons h t ih =>
    unfold download_files_from_html
    cases hf : fileIdFromHref h with
    | none => exact ih st
    | some fid =>
      obtain ⟨f, hf2⟩ := hres fid
      simp only [hf2]
      exact ih (download_file f dir st)

theorem C1_witness :
    (∀ fid, ∃ f, c1okResolve fid = Except.ok f) ∧
    ∃ st2, download_files_from_html
        ["/courses/1/files/10?verifier=x", "/courses/1/files/11?verifier=y"]
        c1okResolve "d" emptySt = Except.ok st2 :=
  ⟨fun _ => ⟨exFail, rfl⟩,
   C1_amended _ c1okResolve "d" emptySt (fun _ => ⟨exFail, rfl⟩)⟩

/-- C1: the claim says every per-file failure while *resolving or
transferring* a discovered file is caught at its origin and processing
always continues.  `course.get_file` (cbd.py lines 153 and 259) is
called outside any try block: a `ResourceDoesNotExist` raised there
escapes `download_files_from_html`, escapes the course loop, and aborts
the whole run — the second link and the second course are never
processed and no message is reported. -/
theorem C1_counterexample :
    download_files_from_html
        ["/courses/1/files/10?verifier=x", "/courses/1/files/11?verifier=y"]
        c1badResolve "d" emptySt = Except.error RErr.resourceDoesNotExist ∧
    runAll "root" [c1badCourse, c1otherCourse] [] emptySt
      = Except.error RErr.resourceDoesNotExist :=
  ⟨rfl, rfl⟩

/-- C8: the claim says a missing skip-list backing file is tolerated
(load succeeds with the empty set).  cbd.py line 182 opens the file in
read mode with no exception handling, so a missing file raises
`FileNotFoundError` and startup fails. -/
theorem C8_counterexample :
    loadSkipList none = Except.error LoadErr.fileNotFound ∧
    loadSkipList none ≠ Except.ok [] :=
  ⟨rfl, fun h => Except.noConfusion h⟩

/-- C8 (amended): the load succeeds only when the backing file exists;
when it does and every line parses as an integer, the parsed id list is
returned.  A missing file makes the read-mode `open` raise. -/
theorem C8_amended (lines : List String)
    (h : ∀ l ∈ lines, (pyInt l).isSome = true) :
    ∃ s, loadSkipList (some lines) = Except.ok s := by
  show ∃ s, parseLines lines = Except.ok s
  induction lines with
  | nil => exact ⟨[], rfl⟩
  | cons s rest ih =>
    obtain ⟨n, hn⟩ := Option.isSome_iff_exists.mp (h s (by simp))
    obtain ⟨t, ht⟩ := ih (fun l hl => h l (by simp [hl]))
    refine ⟨n :: t, ?_⟩
    simp [parseLines, hn, ht]

theorem C8_witness :
    (∀ l ∈ ["12 \n", "7 \n"], (pyInt l).isSome = true) ∧
    ∃ s, loadSkipList (some ["12 \n", "7 \n"]) = Except.ok s :=
  ⟨by decide, C8_amended ["12 \n", "7 \n"] (by decide)⟩

/-- C10: the startup load parses every line with `int`; a line that does
not parse (blank or non-numeric) makes the whole load raise
`ValueError` — no line is skipped and no partial set is returned. -/
theorem C10_thm (lines : List String) (l : String)
    (hmem : l ∈ lines) (hbad : pyInt l = none) :
    loadSkipList (some lines) = Except.error LoadErr.valueError := by
  show parseLines lines = Except.error LoadErr.valueError
  induction lines with
  | nil => cases hmem
  | cons s rest ih =>
    rcases List.mem_cons.mp hmem with rfl | hr
    · simp [parseLines, hbad]
    · cases hs : pyInt s with
      | none => simp [parseLines, hs]
      | some n =>
        have hrest : parseLines rest = Except.error LoadErr.valueError := ih hr
        simp [parseLines, hs, hrest]

theorem C10_witness :
    ("abc" ∈ ["12 \n", "abc"]) ∧ pyInt "abc" = none ∧
    loadSkipList (some ["12 \n", "abc"]) = Except.error LoadErr.valueError :=
  ⟨by decide, by decide, C10_thm ["12 \n", "abc"] "abc" (by decide) (by decide)⟩

theorem pySplit_ne_nil (sep : Char) : ∀ l : List Char, pySplit sep l ≠ []
  | [] => by simp [pySplit]
  | c :: cs => by
    have ih := pySplit_ne_nil sep cs
    by_cases h : c = sep
    · simp [pySplit, h]
    · simp only [pySplit, if_neg h]
      cases hs : pySplit sep cs with
      | nil => exact absurd hs ih
      | cons p ps => simp [List.modifyHead_cons]

theorem pySplit_of_not_mem {sep : Char} : ∀ {l : List Char}, sep ∉ l → pySplit sep l = [l]
  | [], _ => rfl
  | c :: cs, h => by
    have hc : ¬ c = sep := fun he => h (List.mem_cons.mpr (Or.inl he.symm))
    have hcs : sep ∉ cs := fun hm => h (List.mem_cons.mpr (Or.inr hm))
    simp [pySplit, if_neg hc, pySplit_of_not_mem hcs, List.modifyHead_cons]

theorem two_le_length_pySplit {sep : Char} : ∀ {l : List Char}, sep ∈ l → 2 ≤ (pySplit sep l).length
  | [], h => absurd h (List.not_mem_nil sep)
  | c :: cs, h => by
    by_cases hc : c = sep
    · have hpos : 0 < (pySplit sep cs).length := List.length_pos.mpr (pySplit_ne_nil sep cs)
      simp only [pySplit, if_pos hc, List.length_cons]
      omega
    · have hm : sep ∈ cs := by
        rcases List.mem_cons.mp h with he | hm
        · exact absurd he.symm hc
        · exact hm
      have ih := two_le_length_pySplit hm
      simp only [pySplit, if_neg hc]
      cases hs : pySplit sep cs with
      | nil => exact absurd hs (pySplit_ne_nil sep cs)
      | cons p ps =>
        rw [hs] at ih
        simpa [List.modifyHead_cons] using ih

theorem getLastD_cons_ne_nil {α : Type _} {r : List α} (a d : α) (h : r ≠ []) :
    (a :: r).getLastD d = r.getLastD d := by
  cases r with
  | nil => exact absurd rfl h
  | cons p ps => simp [List.getLastD_eq_getLast?, List.getLast?_cons_cons]

theorem afterLastSep_of_not_mem {sep : Char} {l : List Char} (h : sep ∉ l) :
    afterLastSep sep l = l := by
  cases l with
  | nil => rfl
  | cons c cs =>
    have hc : ¬ c = sep := fun he => h (List.mem_cons.mpr (Or.inl he.symm))
    have hcs : sep ∉ cs := fun hm => h (List.mem_cons.mpr (Or.inr hm))
    simp [afterLastSep, hcs, hc]

theorem getLastD_pySplit (sep : Char) :
    ∀ l : List Char, (pySplit sep l).getLastD [] = afterLastSep sep l
  | [] => rfl
  | c :: cs => by
    have ih := getLastD_pySplit sep cs
    by_cases hc : c = sep
    · simp only [pySplit, if_pos hc]
      rw [getLastD_cons_ne_nil _ _ (pySplit_ne_nil sep cs), ih]
      by_cases hm : sep ∈ cs
      · simp [afterLastSep, hm]
      · simp [afterLastSep, hm, hc, afterLastSep_of_not_mem hm]
    · simp only [pySplit, if_neg hc]
      cases hs : pySplit sep cs with
      | nil => exact absurd hs (pySplit_ne_nil sep cs)
      | cons p ps =>
        cases ps with
        | nil =>
          have hm : sep ∉ cs := by
            intro hmem
            have h2 := two_le_length_pySplit hmem
            rw [hs] at h2
            simp at h2
          have hp : p = cs := by
            have h2 := pySplit_of_not_mem hm
            rw [hs] at h2
            simpa using h2
          subst hp
          simp [List.modifyHead_cons, List.getLastD_eq_getLast?, afterLastSep, hm, hc]
        | cons q qs =>
          have hm : sep ∈ cs := by
            by_contra hmm
            rw [pySplit_of_not_mem hmm] at hs
            simp at hs
          rw [List.modifyHead_cons]
          rw [getLastD_cons_ne_nil _ _ (List.cons_ne_nil q qs)]
          have h2 : (pySplit sep cs).getLastD [] = (q :: qs).getLastD [] := by
            rw [hs, getLastD_cons_ne_nil _ _ (List.cons_ne_nil q qs)]
          rw [← h2, ih]
          simp [afterLastSep, hm]

/-- C6 (amended): `valid_filetype` returns false exactly when the last
`.`-separated component of the filename — the whole filename when it
contains no `.` — lower-cased is in the deny set.  In particular a
filename with no `.` is NOT always eligible: it is ineligible when the
whole lowercased name itself is in the set (e.g. `"mp4"`).
`"Lecture.MP4"` is ineligible. -/
theorem C6_amended :
    (∀ f : FileObj, valid_filetype f = false ↔
      String.mk ((afterLastSep '.' f.filename.data).map pyLowerChar) ∈ unwanted_filetypes) ∧
    (∀ f : FileObj, '.' ∉ f.filename.data →
      (valid_filetype f = false ↔
        String.mk (f.filename.data.map pyLowerChar) ∈ unwanted_filetypes)) ∧
    valid_filetype (mkFile "Lecture.MP4") = false := by
  have hmain : ∀ f : FileObj, valid_filetype f = false ↔
      String.mk ((afterLastSep '.' f.filename.data).map pyLowerChar) ∈ unwanted_filetypes := by
    intro f
    unfold valid_filetype
    rw [getLastD_pySplit]
    by_cases hmem :
        String.mk ((afterLastSep '.' f.filename.data).map pyLowerChar) ∈ unwanted_filetypes
    · simp [hmem]
    · simp [hmem]
  refine ⟨hmain, ?_, by decide⟩
  intro f hnd
  rw [hmain f, afterLastSep_of_not_mem hnd]

theorem C6_witness :
    valid_filetype (mkFile "mp4") = false ↔
      String.mk ((mkFile "mp4").filename.data.map pyLowerChar) ∈ unwanted_filetypes :=
  C6_amended.2.1 (mkFile "mp4") (by decide)

/-- C6: the claim says a filename containing no `.` is always eligible;
but `"mp4".split('.')[-1]` is the whole name `"mp4"`, which is in the
deny set, so `valid_filetype` rejects the dotless filename `"mp4"`. -/
theorem C6_counterexample :
    valid_filetype (mkFile "mp4") = false ∧ '.' ∉ ("mp4" : String).data :=
  ⟨by decide, by decide⟩

theorem containsDD_cons (a b : Char) (r : List Char) (h : ¬ (a = '.' ∧ b = '.')) :
    containsDD (a :: b :: r) = containsDD (b :: r) := by
  simp [containsDD, h]

theorem beforeDD_cons (a b : Char) (r : List Char) (h : ¬ (a = '.' ∧ b = '.')) :
    beforeDD (a :: b :: r) = a :: beforeDD (b :: r) := by
  simp [beforeDD, h]

theorem beforeDD_head (b : Char) (r : List Char) :
    beforeDD (b :: r) = [] ∨ ∃ cs, beforeDD (b :: r) = b :: cs := by
  cases r with
  | nil => exact Or.inr ⟨[], rfl⟩
  | cons r0 r1 =>
    by_cases h : b = '.' ∧ r0 = '.'
    · exact Or.inl (by simp [beforeDD, h])
    · exact Or.inr ⟨beforeDD (r0 :: r1), beforeDD_cons b r0 r1 h⟩

theorem beforeDD_eq_nil {m : List Char} (h : beforeDD m = []) :
    m = [] ∨ ∃ r, m = '.' :: '.' :: r := by
  cases m with
  | nil => exact Or.inl rfl
  | cons a t =>
    cases t with
    | nil => simp [beforeDD] at h
    | cons b r =>
      by_cases hab : a = '.' ∧ b = '.'
      · exact Or.inr ⟨r, by rw [hab.1, hab.2]⟩
      · rw [beforeDD_cons a b r hab] at h
        simp at h

theorem beforeDD_decomp : ∀ m : List Char, containsDD m = true →
    ∃ rest, m = beforeDD m ++ '.' :: '.' :: rest
  | [], h => by simp [containsDD] at h
  | [c], h => by simp [containsDD] at h
  | a :: b :: r, h => by
    by_cases hab : a = '.' ∧ b = '.'
    · exact ⟨r, by simp [beforeDD, hab, hab.1, hab.2]⟩
    · have h2 : containsDD (b :: r) = true := by rwa [containsDD_cons a b r hab] at h
      obtain ⟨rest, hr⟩ := beforeDD_decomp (b :: r) h2
      refine ⟨rest, ?_⟩
      rw [beforeDD_cons a b r hab, List.cons_append, ← hr]

theorem containsDD_beforeDD : ∀ m : List Char, containsDD (beforeDD m) = false
  | [] => rfl
  | [c] => rfl
  | a :: b :: r => by
    by_cases hab : a = '.' ∧ b = '.'
    · simp [beforeDD, hab, containsDD]
    · have ih := containsDD_beforeDD (b :: r)
      rw [beforeDD_cons a b r hab]
      rcases beforeDD_head b r with hnil | ⟨cs, hcs⟩
      · rw [hnil]; rfl
      · rw [hcs]
        rw [hcs] at ih
        rw [containsDD_cons a b cs hab]
        exact ih

theorem beforeDD_getLast : ∀ m : List Char, containsDD m = true →
    ∀ c, (beforeDD m).getLast? = some c → c ≠ '.'
  | [], h => by simp [containsDD] at h
  | [x], h => by simp [containsDD] at h
  | a :: b :: r, h => by
    intro c hc
    by_cases hab : a = '.' ∧ b = '.'
    · rw [show beforeDD (a :: b :: r) = [] from by simp [beforeDD, hab]] at hc
      simp at hc
    · rw [beforeDD_cons a b r hab] at hc
      rcases beforeDD_head b r with hnil | ⟨cs, hcs⟩
      · rw [hnil] at hc
        simp at hc
        subst hc
        rcases beforeDD_eq_nil hnil with h0 | ⟨r2, h2⟩
        · simp at h0
        · injection h2 with hb hr2
          intro ha
          exact hab ⟨ha, hb⟩
      · rw [hcs] at hc
        rw [List.getLast?_cons_cons] at hc
        have h2 : containsDD (b :: r) = true := by rwa [containsDD_cons a b r hab] at h
        exact beforeDD_getLast (b :: r) h2 c (by rw [hcs]; exact hc)

theorem containsDD_append_dd : ∀ (xs ys : List Char), containsDD (xs ++ '.' :: '.' :: ys) = true
  | [], ys => by simp [containsDD]
  | [x], ys => by
    by_cases hx : x = '.'
    · simp [containsDD, hx]
    · have hn : ¬ (x = '.' ∧ '.' = '.') := fun hh => hx hh.1
      rw [List.singleton_append, containsDD_cons x '.' ('.' :: ys) hn]
      simp [containsDD]
  | x :: y :: xs, ys => by
    by_cases hxy : x = '.' ∧ y = '.'
    · simp [containsDD, hxy]
    · have ih := containsDD_append_dd (y :: xs) ys
      have heq : (x :: y :: xs) ++ '.' :: '.' :: ys = x :: y :: (xs ++ '.' :: '.' :: ys) := by
        simp
      rw [heq, containsDD_cons x y _ hxy]
      have heq2 : y :: (xs ++ '.' :: '.' :: ys) = (y :: xs) ++ '.' :: '.' :: ys := by simp
      rw [heq2]
      exact ih

theorem dtd_of_rev_dd {o : List Char} {t : List Char} (hrev : o.reverse = '.' :: '.' :: t) :
    dropTrailingDots o = some (beforeDD o) := by
  simp [dropTrailingDots, hrev]

theorem dtd_of_rev_single {o : List Char} (hrev : o.reverse = ['.']) :
    dropTrailingDots o = some o.dropLast := by
  simp [dropTrailingDots, hrev]

theorem dtd_of_rev_one_dot {o : List Char} {b : Char} {t : List Char}
    (hrev : o.reverse = '.' :: b :: t) (hb : b ≠ '.') :
    dropTrailingDots o = some o.dropLast := by
  simp [dropTrailingDots, hrev, hb]

theorem dtd_of_rev_no_dot {o : List Char} {a : Char} {t : List Char}
    (hrev : o.reverse = a :: t) (ha : a ≠ '.') :
    dropTrailingDots o = some o := by
  simp [dropTrailingDots, hrev, ha]

/-- Inversion for `dropTrailingDots`: the four ways it can return a value. -/
theorem dtd_inv {o zl : List Char} (h : dropTrailingDots o = some zl) :
    (∃ t, o.reverse = '.' :: '.' :: t ∧ zl = beforeDD o) ∨
    (o.reverse = ['.'] ∧ zl = o.dropLast) ∨
    (∃ b t, o.reverse = '.' :: b :: t ∧ b ≠ '.' ∧ zl = o.dropLast) ∨
    (∃ a t, o.reverse = a :: t ∧ a ≠ '.' ∧ zl = o) := by
  rcases hrev : o.reverse with _ | ⟨a, _ | ⟨b, t⟩⟩
  · rw [show dropTrailingDots o = none from by simp [dropTrailingDots, hrev]] at h
    exact Option.noConfusion h
  · by_cases ha : a = '.'
    · subst ha
      rw [dtd_of_rev_single hrev] at h
      exact Or.inr (Or.inl ⟨rfl, (Option.some_inj.mp h).symm⟩)
    · rw [dtd_of_rev_no_dot hrev ha] at h
      exact Or.inr (Or.inr (Or.inr ⟨a, [], rfl, ha, (Option.some_inj.mp h).symm⟩))
  · by_cases ha : a = '.'
    · subst ha
      by_cases hb : b = '.'
      · subst hb
        rw [dtd_of_rev_dd hrev] at h
        exact Or.inl ⟨t, rfl, (Option.some_inj.mp h).symm⟩
      · rw [dtd_of_rev_one_dot hrev hb] at h
        exact Or.inr (Or.inr (Or.inl ⟨b, t, rfl, hb, (Option.some_inj.mp h).symm⟩))
    · rw [dtd_of_rev_no_dot hrev ha] at h
      exact Or.inr (Or.inr (Or.inr ⟨a, b :: t, rfl, ha, (Option.some_inj.mp h).symm⟩))

/-- A list whose reverse starts `'.' :: '.' :: t` decomposes as
`t.reverse ++ ['.', '.']`. -/
theorem rev_dd_decomp {o t : List Char} (hrev : o.reverse = '.' :: '.' :: t) :
    o = t.reverse ++ '.' :: '.' :: [] := by
  have h1 : o = o.reverse.reverse := (List.reverse_reverse o).symm
  rw [h1, hrev]
  simp

/-- C9 (amended): for a non-file name whose stripped intermediate ends in
two consecutive periods, the code truncates at the FIRST occurrence of
`'..'` in the whole string (cbd.py line 42 takes `split('..')[0]`), not
at the start of the trailing run: the part kept is the prefix before the
first `'..'` (it contains no `'..'`).  A name ending in exactly one
period loses just that period.  The two spec examples hold. -/
theorem C9_amended :
    (∀ o : List Char, o.reverse.take 2 = ['.', '.'] →
      ∃ rest, dropTrailingDots o = some (beforeDD o) ∧
        o = beforeDD o ++ '.' :: '.' :: rest ∧ containsDD (beforeDD o) = false) ∧
    (∀ o : List Char, o ≠ [] → o.getLast? = some '.' → o.reverse.take 2 ≠ ['.', '.'] →
      dropTrailingDots o = some o.dropLast) ∧
    make_valid_folder_name "Notes..." false = some "Notes" ∧
    make_valid_folder_name "Notes.." false = some "Notes" := by
  refine ⟨?_, ?_, by decide, by decide⟩
  · intro o htake
    have hrev : o.reverse = '.' :: '.' :: o.reverse.drop 2 := by
      have h1 := List.take_append_drop 2 o.reverse
      rw [htake] at h1
      exact h1.symm
    have hdd : containsDD o = true := by
      rw [rev_dd_decomp hrev]
      exact containsDD_append_dd _ _
    obtain ⟨rest, hr⟩ := beforeDD_decomp o hdd
    exact ⟨rest, dtd_of_rev_dd hrev, hr, containsDD_beforeDD o⟩
  · intro o hne hlast htake
    have hrevne : o.reverse ≠ [] := by
      intro hx
      exact hne (List.reverse_eq_nil_iff.mp hx)
    rcases hrev : o.reverse with _ | ⟨a, r⟩
    · exact absurd hrev hrevne
    · have ha : a = '.' := by
        have h1 : o.reverse.head? = some '.' := by rw [List.head?_reverse]; exact hlast
        rw [hrev] at h1
        simpa using h1
      subst ha
      cases r with
      | nil => exact dtd_of_rev_single hrev
      | cons b t =>
        have hb : b ≠ '.' := by
          intro hbe
          subst hbe
          rw [hrev] at htake
          simp at htake
        exact dtd_of_rev_one_dot hrev hb

theorem C9_witness :
    dropTrailingDots ['a', 'b', '.'] = some (List.dropLast ['a', 'b', '.']) ∧
    dropTrailingDots ['a', 'b', '.', '.'] = some (beforeDD ['a', 'b', '.', '.']) := by
  refine ⟨C9_amended.2.1 ['a', 'b', '.'] (by decide) (by decide) (by decide), ?_⟩
  obtain ⟨rest, h1, h2, h3⟩ := C9_amended.1 ['a', 'b', '.', '.'] (by decide)
  exact h1

/-- C9: the claim says everything before the trailing run of periods is
kept unchanged.  On `"a..b.."` the trailing run is the final `".."` and
the claim therefore expects `"a..b"`, but `split('..')[0]` cuts at the
FIRST `'..'` and the code returns `"a"`. -/
theorem C9_counterexample :
    make_valid_folder_name "a..b.." false = some "a" ∧
    make_valid_folder_name "a..b.." false ≠ some "a..b" :=
  ⟨by decide, by decide⟩

theorem head?_dropWhile_not (p : Char → Bool) (l : List Char) :
    ∀ c, (l.dropWhile p).head? = some c → p c = false := by
  induction l with
  | nil => intro c hc; exact Option.noConfusion hc
  | cons a t ih =>
    intro c hc
    rw [List.dropWhile_cons] at hc
    by_cases hpa : p a = true
    · rw [if_pos hpa] at hc
      exact ih c hc
    · rw [if_neg hpa] at hc
      have hac : a = c := by simpa using hc
      subst hac
      simpa using hpa

theorem dropWhile_eq_self_of_head (p : Char → Bool) (l : List Char)
    (h : ∀ c, l.head? = some c → p c = false) : l.dropWhile p = l := by
  cases l with
  | nil => rfl
  | cons c cs => simp [List.dropWhile_cons, h c rfl]

theorem rdropWhile_eq_self_of_getLast (p : Char → Bool) (l : List Char)
    (h : ∀ c, l.getLast? = some c → p c = false) : l.rdropWhile p = l := by
  unfold List.rdropWhile
  rw [dropWhile_eq_self_of_head p l.reverse
      (fun c hc => h c (by rwa [List.head?_reverse] at hc)),
    List.reverse_reverse]

theorem stripL_eq_self {l : List Char}
    (h1 : ∀ c, l.head? = some c → isPySpace c = false)
    (h2 : ∀ c, l.getLast? = some c → isPySpace c = false) : stripL l = l := by
  unfold stripL
  rw [dropWhile_eq_self_of_head _ l h1, rdropWhile_eq_self_of_getLast _ l h2]

theorem stripL_head_not (l : List Char) :
    ∀ c, (stripL l).head? = some c → isPySpace c = false := by
  intro c hc
  obtain ⟨w, hw⟩ : stripL l <+: l.dropWhile isPySpace :=
    List.rdropWhile_prefix isPySpace (l.dropWhile isPySpace)
  apply head?_dropWhile_not isPySpace l c
  rw [← hw]
  cases hsl : stripL l with
  | nil => rw [hsl] at hc; exact Option.noConfusion hc
  | cons d ds =>
    rw [hsl] at hc
    simpa using hc

theorem stripL_getLast_not (l : List Char) :
    ∀ c, (stripL l).getLast? = some c → isPySpace c = false := by
  intro c hc
  have hh : (List.dropWhile isPySpace (l.dropWhile isPySpace).reverse).head? = some c := by
    have h1 : stripL l = ((l.dropWhile isPySpace).reverse.dropWhile isPySpace).reverse := rfl
    rw [h1, List.getLast?_reverse] at hc
    exact hc
  exact head?_dropWhile_not _ _ c hh

theorem stripL_idem (l : List Char) : stripL (stripL l) = stripL l :=
  stripL_eq_self (stripL_head_not l) (stripL_getLast_not l)

theorem stripL_length_le (l : List Char) : (stripL l).length ≤ l.length := by
  have h1 : (stripL l).length ≤ (l.dropWhile isPySpace).length :=
    ( List.rdropWhile_prefix _ _).length_le
  have h2 : (l.dropWhile isPySpace).length ≤ l.length :=
    (List.dropWhile_suffix _).length_le
  omega

theorem stripL_subset (l : List Char) : ∀ c ∈ stripL l, c ∈ l := by
  intro c hc
  exact (List.dropWhile_suffix _).subset (( List.rdropWhile_prefix _ _).subset hc)

theorem map_fix {f : Char → Char} {l : List Char} (h : ∀ c ∈ l, f c = c) : l.map f = l := by
  rw [List.map_congr_left (g := id) (fun a ha => (h a ha).trans rfl), List.map_id]

theorem replChar_idem (c : Char) : replChar (replChar c) = replChar c := by
  by_cases h : c ∈ badChars
  · have h2 : replChar c = '_' := by rw [replChar, if_pos h]
    rw [h2]
    decide
  · have h2 : replChar c = c := by rw [replChar, if_neg h]
    rw [h2]
    exact h2

theorem sanitizeBaseL_length (l : List Char) : (sanitizeBaseL l).length ≤ 120 := by
  have h2 : (if l.length > 120 then l.take 120 else l).length ≤ 120 := by
    by_cases h : l.length > 120
    · rw [if_pos h, List.length_take]
      exact min_le_left _ _
    · rw [if_neg h]
      omega
  have h1 := stripL_length_le ((if l.length > 120 then l.take 120 else l).map replChar)
  rw [List.length_map] at h1
  exact le_trans h1 h2

theorem sanitizeBaseL_clean (l : List Char) : ∀ c ∈ sanitizeBaseL l, replChar c = c := by
  intro c hc
  have hmem : c ∈ (if l.length > 120 then l.take 120 else l).map replChar :=
    stripL_subset _ c hc
  obtain ⟨d, _, hd⟩ := List.mem_map.mp hmem
  rw [← hd]
  exact replChar_idem d

theorem sanitizeBaseL_strip (l : List Char) : stripL (sanitizeBaseL l) = sanitizeBaseL l :=
  stripL_idem _

theorem sanitizeBaseL_fix {l : List Char} (h1 : l.length ≤ 120)
    (h2 : ∀ c ∈ l, replChar c = c) (h3 : stripL l = l) : sanitizeBaseL l = l := by
  unfold sanitizeBaseL
  rw [if_neg (by omega), map_fix h2, h3]

theorem sanitizeBaseL_idem (l : List Char) :
    sanitizeBaseL (sanitizeBaseL l) = sanitizeBaseL l :=
  sanitizeBaseL_fix (sanitizeBaseL_length l) (sanitizeBaseL_clean l) (sanitizeBaseL_strip l)

/-- C5 (amended): `make_valid_folder_name` is idempotent for `is_file =
true`; for `is_file = false` it is idempotent whenever the first result
is defined, non-empty and does not end in whitespace.  (Stripping a
trailing period can expose trailing whitespace — see the
counterexample — and a result that is empty makes the second
application raise.) -/
theorem C5_amended (x z : String) (f : Bool)
    (h1 : make_valid_folder_name x f = some z)
    (h2 : f = false → z ≠ "" ∧ ∀ c, z.data.getLast? = some c → isPySpace c = false) :
    make_valid_folder_name z f = some z := by
  cases f with
  | true =>
    have hx : make_valid_folder_name x true = some (String.mk (sanitizeBaseL x.data)) := rfl
    rw [hx] at h1
    have hz : z = String.mk (sanitizeBaseL x.data) := (Option.some_inj.mp h1).symm
    have hzdata : z.data = sanitizeBaseL x.data := by rw [hz]
    have hgoal : make_valid_folder_name z true = some (String.mk (sanitizeBaseL z.data)) := rfl
    rw [hgoal, hzdata, sanitizeBaseL_idem, hz]
  | false =>
    obtain ⟨hne, hlast⟩ := h2 rfl
    have hx : make_valid_folder_name x false
        = (dropTrailingDots (sanitizeBaseL x.data)).map String.mk := rfl
    rw [hx] at h1
    obtain ⟨zl, hzl, hmk⟩ := Option.map_eq_some'.mp h1
    set o := sanitizeBaseL x.data with ho
    have ho2 : ∀ c ∈ o, replChar c = c := sanitizeBaseL_clean x.data
    have ho3 : stripL o = o := sanitizeBaseL_strip x.data
    have hzdata : z.data = zl := by rw [← hmk]
    have hzlne : zl ≠ [] := by
      intro hnil
      apply hne
      rw [← hmk, hnil]
    have hpre : ∃ w, o = zl ++ w := by
      rcases dtd_inv hzl with ⟨t, hrev, hbd⟩ | ⟨hrev, hdl⟩ |
        ⟨b, t, hrev, hb, hdl⟩ | ⟨a, t, hrev, ha, hid⟩
      · have hdd : containsDD o = true := by
          rw [rev_dd_decomp hrev]
          exact containsDD_append_dd _ _
        obtain ⟨rest, hr⟩ := beforeDD_decomp o hdd
        exact ⟨'.' :: '.' :: rest, by rw [hbd]; exact hr⟩
      · have hone : o ≠ [] := by
          intro hh
          rw [hh] at hrev
          exact List.noConfusion hrev
        exact ⟨[o.getLast hone], by rw [hdl]; exact (List.dropLast_append_getLast hone).symm⟩
      · have hone : o ≠ [] := by
          intro hh
          rw [hh] at hrev
          exact List.noConfusion hrev
        exact ⟨[o.getLast hone], by rw [hdl]; exact (List.dropLast_append_getLast hone).symm⟩
      · exact ⟨[], by rw [hid, List.append_nil]⟩
    have hnotdot : ∀ c, zl.getLast? = some c → c ≠ '.' := by
      rcases dtd_inv hzl with ⟨t, hrev, hbd⟩ | ⟨hrev, hdl⟩ |
        ⟨b, t, hrev, hb, hdl⟩ | ⟨a, t, hrev, ha, hid⟩
      · intro c hc
        have hdd : containsDD o = true := by
          rw [rev_dd_decomp hrev]
          exact containsDD_append_dd _ _
        exact beforeDD_getLast o hdd c (by rw [← hbd]; exact hc)
      · intro c hc
        exfalso
        apply hzlne
        have hoeq : o = ['.'] := by
          have h3 := congrArg List.reverse hrev
          simpa using h3
        rw [hdl, hoeq]
        rfl
      · intro c hc
        have hoeq : o = (b :: t).reverse ++ ['.'] := by
          have h3 := congrArg List.reverse hrev
          simpa using h3
        have hdl2 : o.dropLast = (b :: t).reverse := by rw [hoeq, List.dropLast_concat]
        rw [hdl, hdl2] at hc
        rw [List.getLast?_reverse] at hc
        have hbc : b = c := by simpa using hc
        rw [← hbc]
        exact hb
      · intro c hc
        rw [hid] at hc
        have h3 : o.reverse.head? = some c := by rw [List.head?_reverse]; exact hc
        rw [hrev] at h3
        have hac : a = c := by simpa using h3
        rw [← hac]
        exact ha
    obtain ⟨w, hw⟩ := hpre
    have hlen : zl.length ≤ 120 := by
      have h3 : o.length = zl.length + w.length := by rw [hw, List.length_append]
      have h4 : o.length ≤ 120 := sanitizeBaseL_length x.data
      omega
    have hclean : ∀ c ∈ zl, replChar c = c :=
      fun c hc => ho2 c (by rw [hw]; exact List.mem_append.mpr (Or.inl hc))
    have hhead : ∀ c, zl.head? = some c → isPySpace c = false := by
      intro c hc
      have hoh : o.head? = some c := by
        rw [hw]
        cases zl with
        | nil => exact absurd rfl hzlne
        | cons d ds => simpa using hc
      exact stripL_head_not o c (by rw [ho3]; exact hoh)
    have hstrip : stripL zl = zl :=
      stripL_eq_self hhead (fun c hc => hlast c (by rw [hzdata]; exact hc))
    have hfix : sanitizeBaseL zl = zl := sanitizeBaseL_fix hlen hclean hstrip
    have hdtd : dropTrailingDots zl = some zl := by
      rcases hzr : zl.reverse with _ | ⟨a, r⟩
      · exact absurd (List.reverse_eq_nil_iff.mp hzr) hzlne
      · have hga : zl.getLast? = some a := by
          rw [← List.head?_reverse, hzr]
          rfl
        exact dtd_of_rev_no_dot hzr (hnotdot a hga)
    have hgoal : make_valid_folder_name z false
        = (dropTrailingDots (sanitizeBaseL z.data)).map String.mk := rfl
    rw [hgoal, hzdata, hfix, hdtd, Option.map_some', hmk]

theorem C5_witness : make_valid_folder_name "abc" false = some "abc" :=
  C5_amended "abc" "abc" false (by decide)
    (fun _ => ⟨by decide, fun c hc => by
      have hl : ("abc" : String).data.getLast? = some 'c' := rfl
      rw [hl] at hc
      have hcc : 'c' = c := Option.some_inj.mp hc
      rw [← hcc]
      decide⟩)

/-- C5: the claim says `sanitize` is idempotent for every input and flag.
For `is_file = false`, stripping the trailing period of `"a ."` exposes
the trailing space: the first application gives `"a "`, the second
strips further to `"a"`, so the composition differs from a single
application. -/
theorem C5_counterexample :
    make_valid_folder_name "a ." false = some "a " ∧
    make_valid_folder_name "a " false = some "a" ∧
    (make_valid_folder_name "a ." false).bind (fun y => make_valid_folder_name y false)
      ≠ make_valid_folder_name "a ." false :=
  ⟨by decide, by decide, by decide⟩
